import Mathlib

/-!
# Verification of `lestrrat-go/realip`

A shallow embedding of `realip.go` (package `realip`): the `Builder`, the
`Handler` with its trust cache, `ServeHTTP`, `trustedIP` and
`realIPFromXFF`, together with the parts of the Go standard library the
package relies on (`strings.TrimSpace`, `strings.ToLower`, `strings.Split`,
`net.SplitHostPort`, `net.ParseIP`, `net.IPNet.Contains`, `net.IP.String`,
`net/http` header get/set).

Go strings are modelled as `List Char`.  IP addresses are modelled by the
IPv4 fragment of `net.IP`: `IP = Option IPv4` where `none` models the nil
`net.IP` (the result of a failed parse); IPv6 textual addresses are outside
the modelled fragment and parse to `none` here, exactly like any other
string that is not a dotted-quad IPv4 address.  All the configurations and
addresses appearing in the repository's spec and tests are IPv4.

The mutable `h.cache` map (`map[string]struct{}` guarded by `muCache`) is
modelled by an explicit `List Str` of keys threaded through every function
that Go mutates it in; `map` insertion is list `cons`, lookup is list
membership.
-/

namespace RealIP

/-- Go strings, modelled as lists of characters. -/
abbrev Str := List Char

/-- Model of `unicode.IsSpace` on the Latin-1 range, which is what
`strings.TrimSpace` tests on each rune (`\t`, `\n`, `\v`, `\f`, `\r`,
space, NEL U+0085, NBSP U+00A0). -/
def isSpace (c : Char) : Bool :=
  c = ' ' || c = '\t' || c = '\n' || c = '\r' ||
  c = Char.ofNat 11 || c = Char.ofNat 12 || c = Char.ofNat 0x85 || c = Char.ofNat 0xA0

/-- Drop leading space characters. -/
def trimLeft : Str → Str
  | [] => []
  | c :: cs => if isSpace c then trimLeft cs else c :: cs

/-- Model of `strings.TrimSpace`: drop leading and trailing space characters. -/
def trimSpace (s : Str) : Str :=
  ((trimLeft s).reverse |> trimLeft).reverse

/-- Model of `strings.ToLower` on ASCII letters (header names in this package are
ASCII). -/
def toLowerChar (c : Char) : Char :=
  if 65 ≤ c.toNat && c.toNat ≤ 90 then Char.ofNat (c.toNat + 32) else c

/-- Model of `strings.ToLower`, character-wise. -/
def toLower (s : Str) : Str := s.map toLowerChar

/-- Model of `strings.Split(s, sep)` for a one-character separator.  As in Go, the
result is never empty: `split "" = [""]`. -/
def splitOnChar (sep : Char) : Str → List Str
  | [] => [[]]
  | c :: cs =>
    let r := splitOnChar sep cs
    if c = sep then [] :: r
    else (c :: r.headD []) :: r.tail

/-- A parsed IPv4 address: four octets. -/
structure IPv4 where
  a : Fin 256
  b : Fin 256
  c : Fin 256
  d : Fin 256
  deriving DecidableEq

/-- Go `net.IP`, restricted to the IPv4 fragment; `none` models the nil
`net.IP` that `net.ParseIP` returns on failure. -/
abbrev IP := Option IPv4

/-- The address as a 32-bit number (big-endian octets). -/
def IPv4.toNat (q : IPv4) : Nat :=
  ((q.a.val * 256 + q.b.val) * 256 + q.c.val) * 256 + q.d.val

/-- Go `net.IPNet` as produced by `net.ParseCIDR`: a base address and a
contiguous prefix mask of `maskBits` bits. -/
structure IPNet where
  base : IPv4
  maskBits : Nat
  deriving DecidableEq

/-- Model of `net.IPNet.Contains`: mask both the network number and the candidate
address and compare.  The nil IP has the wrong length and is never
contained. -/
def IPNet.Contains (n : IPNet) : IP → Bool
  | none => false
  | some q => (q.toNat >>> (32 - n.maskBits)) == (n.base.toNat >>> (32 - n.maskBits))

/-- ASCII decimal digit test. -/
def isDigit (c : Char) : Bool := 48 ≤ c.toNat && c.toNat ≤ 57

/-- Value of a string of decimal digits. -/
def digitsVal (s : Str) : Nat :=
  s.foldl (fun acc c => acc * 10 + (c.toNat - 48)) 0

/-- One dotted-decimal field as accepted by Go's IPv4 parser: one to three
decimal digits, no leading zero (except `"0"` itself), value at most 255. -/
def parseField (s : Str) : Option (Fin 256) :=
  if s = [] then none
  else if !s.all isDigit then none
  else if 3 < s.length then none
  else if s.headD ' ' = '0' ∧ s ≠ ['0'] then none
  else if h : digitsVal s < 256 then some ⟨digitsVal s, h⟩ else none

/-- Go's dotted-quad IPv4 parse: exactly four fields separated by `.`. -/
def parseIPv4 (s : Str) : IP :=
  match splitOnChar '.' s with
  | [f1, f2, f3, f4] =>
    match parseField f1, parseField f2, parseField f3, parseField f4 with
    | some a, some b, some c, some d => some ⟨a, b, c, d⟩
    | _, _, _, _ => none
  | _ => none

/-- Model of `net.ParseIP` on its IPv4 fragment: any string that is not a
dotted-quad IPv4 address (including IPv6 text, which is outside the
modelled fragment) yields `none`, Go's nil IP. -/
def parseIP (s : Str) : IP := parseIPv4 s

/-- Go's `uitoa` digit loop, with fuel (`n + 1` suffices). -/
def uitoaCore : Nat → Nat → Str → Str
  | 0, _, acc => acc
  | f + 1, n, acc =>
    if n < 10 then Char.ofNat (48 + n) :: acc
    else uitoaCore f (n / 10) (Char.ofNat (48 + n % 10) :: acc)

/-- Decimal representation of a natural number (`uitoa` in Go's net
package). -/
def uitoa (n : Nat) : Str := uitoaCore (n + 1) n []

/-- Model of `net.IP.String`: dotted decimal for an IPv4 address, `"<nil>"` for the
nil IP. -/
def ipString : IP → Str
  | none => "<nil>".data
  | some q =>
    uitoa q.a.val ++ '.' :: (uitoa q.b.val ++ '.' :: (uitoa q.c.val ++ '.' :: uitoa q.d.val))

/-- The loop body of `Handler.trustedIP`: scan the trusted ranges in order;
the first range containing `ip` inserts `ipstr` into the cache and returns
true. -/
def scanInsert (ip : IP) (ipstr : Str) (cache : List Str) : List IPNet → Bool × List Str
  | [] => (false, cache)
  | rng :: rest =>
    if rng.Contains ip then (true, ipstr :: cache) else scanInsert ip ipstr cache rest

/-- Model of `Handler.trustedIP`: an empty trusted list trusts everybody without
touching the cache; otherwise a cache hit on `ip.String()` returns true,
and on a miss the ranges are scanned, caching a positive answer. -/
def trustedIP (cache : List Str) (ip : IP) (trusted : List IPNet) : Bool × List Str :=
  if trusted.isEmpty then (true, cache)
  else
    let ipstr := ipString ip
    if ipstr ∈ cache then (true, cache)
    else scanInsert ip ipstr cache trusted

/-- The descending index loop of `Handler.realIPFromXFF`, applied to the
reversed entry list: return the first (rightmost) entry, trimmed, whose
parsed address is not trusted, threading the cache. -/
def xffScan (trusted : List IPNet) (cache : List Str) : List Str → Option Str × List Str
  | [] => (none, cache)
  | e :: rest =>
    let ipStr := trimSpace e
    let tc := trustedIP cache (parseIP ipStr) trusted
    if tc.1 then xffScan trusted tc.2 rest else (some ipStr, tc.2)

/-- The `Handler` configuration plus its mutable trust cache.  `next`,
`muCache` and the HTTP plumbing are not part of the core model. -/
structure Handler where
  trusted : List IPNet
  srcHeader : Str
  dstHeader : Str
  recursive : Bool
  cache : List Str
  deriving DecidableEq

def HeaderXForwardedFor : Str := "x-forwarded-for".data
def HeaderXRealIP : Str := "x-real-ip".data
def headerForwarded : Str := "forwarded".data

/-- Model of `Handler.realIPFromXFF`: split the header on commas; non-recursive
mode returns the last entry trimmed; recursive mode scans right to left
for an untrusted entry and otherwise falls back to the first entry,
trimmed.  Returns the updated cache alongside the result. -/
def Handler.realIPFromXFF (h : Handler) (xff : Str) : Str × List Str :=
  let ips := splitOnChar ',' xff
  if ips.isEmpty then ([], h.cache)
  else if !h.recursive then (trimSpace (ips.getLastD []), h.cache)
  else
    match xffScan h.trusted h.cache ips.reverse with
    | (some s, c) => (s, c)
    | (none, c) => (trimSpace (ips.headD []), c)

/-- A request header collection; `net/http` keys are case-insensitive. -/
abbrev Header := List (Str × Str)

/-- Model of `http.Header.Get`: first value stored under the (case-insensitive)
key, or `""`. -/
def headerGet (hdrs : Header) (k : Str) : Str :=
  match hdrs with
  | [] => []
  | p :: rest => if toLower p.1 = toLower k then p.2 else headerGet rest k

/-- Model of `http.Header.Set`: replace all values under the (case-insensitive)
key. -/
def headerSet (hdrs : Header) (k v : Str) : Header :=
  (k, v) :: hdrs.filter (fun p => decide (toLower p.1 ≠ toLower k))

/-- Index of the last `':'` in a string, if any (`last(hostPort, ':')`). -/
def lastColonIdx (s : Str) : Option Nat :=
  match s.reverse.findIdx? (fun c => c == ':') with
  | none => none
  | some j => some (s.length - 1 - j)

/-- Model of `net.SplitHostPort`: the port starts after the last colon; a leading
`[` introduces a bracketed (IPv6-style) host; `none` models every error
return. -/
def splitHostPort (hostPort : Str) : Option (Str × Str) :=
  match lastColonIdx hostPort with
  | none => none
  | some i =>
    if hostPort.head? = some '[' then
      match hostPort.findIdx? (fun c => c == ']') with
      | none => none
      | some e =>
        if e + 1 = hostPort.length then none
        else if e + 1 = i then
          if '[' ∈ hostPort.drop 1 then none
          else if ']' ∈ hostPort.drop (e + 1) then none
          else some ((hostPort.take e).drop 1, hostPort.drop (i + 1))
        else none
    else
      if ':' ∈ hostPort.take i then none
      else if '[' ∈ hostPort then none
      else if ']' ∈ hostPort then none
      else some (hostPort.take i, hostPort.drop (i + 1))

/-- The host as `ServeHTTP` uses it: `net.SplitHostPort`'s host with the
error ignored, which leaves `""` on any error. -/
def splitHost (s : Str) : Str :=
  match splitHostPort s with
  | some p => p.1
  | none => []

/-- The `switch h.srcHeader` block of `ServeHTTP`: the forwarding-chain
header goes through `realIPFromXFF`, any other source header is read
verbatim. -/
def sourceCandidate (h : Handler) (hdrs : Header) : Str × List Str :=
  if h.srcHeader = HeaderXForwardedFor then
    h.realIPFromXFF (headerGet hdrs HeaderXForwardedFor)
  else (headerGet hdrs h.srcHeader, h.cache)

/-- Model of `Handler.ServeHTTP`, as the transformation it performs on the request
headers before invoking `next` (which is always invoked): returns the
header set passed on together with the updated handler (cache). -/
def serveHTTP (h : Handler) (remoteAddr : Str) (hdrs : Header) : Header × Handler :=
  let rawRemoteIP := splitHost remoteAddr
  let tc := trustedIP h.cache (parseIP rawRemoteIP) h.trusted
  if !tc.1 then
    ((if rawRemoteIP ≠ [] then headerSet hdrs h.dstHeader rawRemoteIP else hdrs),
      { h with cache := tc.2 })
  else
    let rc := sourceCandidate { h with cache := tc.2 } hdrs
    let realIP := if rc.1 = [] then rawRemoteIP else rc.1
    ((if realIP ≠ [] then headerSet hdrs h.dstHeader realIP else hdrs),
      { h with cache := rc.2 })

/-- The handler `Builder.Reset` installs: X-Real-IP on both sides, no
trusted ranges, non-recursive, fresh empty cache. -/
def defaultHandler : Handler :=
  { trusted := [], srcHeader := HeaderXRealIP, dstHeader := HeaderXRealIP,
    recursive := false, cache := [] }

/-- Model of `realip.Builder`: the handler under construction and the first
recorded error, if any. -/
structure Builder where
  h : Handler
  err : Option Str

/-- Model of `Builder.Reset`: discard all accumulated state. -/
def Builder.Reset (_b : Builder) : Builder :=
  { h := defaultHandler, err := none }

/-- Model of `realip.New`: a zero builder, immediately reset. -/
def New : Builder :=
  Builder.Reset { h := defaultHandler, err := none }

def forwardedErr : Str := "realip.Builder: `Forwarded` header is not supported".data

/-- Model of `Builder.Build`: hand out the handler or the first recorded error, and
reset the builder either way. -/
def Builder.Build (b : Builder) : Except Str Handler × Builder :=
  match b.err with
  | some e => (Except.error e, b.Reset)
  | none => (Except.ok b.h, b.Reset)

/-- Model of `Builder.SourceHeader`: lower-case and trim the name; reject the
reserved `forwarded` header. -/
def Builder.SourceHeader (b : Builder) (name : Str) : Builder :=
  if b.err.isSome then b
  else
    let lowered := toLower (trimSpace name)
    if lowered = headerForwarded then { b with err := some forwardedErr }
    else { b with h := { b.h with srcHeader := lowered } }

/-- Model of `Builder.DestinationHeader`: lower-case and store. -/
def Builder.DestinationHeader (b : Builder) (header : Str) : Builder :=
  if b.err.isSome then b
  else { b with h := { b.h with dstHeader := toLower header } }

/-- Model of `Builder.TrustedIP`: append to the trusted ranges. -/
def Builder.TrustedIP (b : Builder) (trusted : List IPNet) : Builder :=
  if b.err.isSome then b
  else { b with h := { b.h with trusted := b.h.trusted ++ trusted } }

/-- Model of `Builder.Recursive`: store the flag. -/
def Builder.Recursive (b : Builder) (v : Bool) : Builder :=
  if b.err.isSome then b
  else { b with h := { b.h with recursive := v } }

/-- Run a sequence of requests through the handler, accumulating only the
cache effects ("warming" it). -/
def warm (h : Handler) : List (Str × Header) → Handler
  | [] => h
  | req :: rest => warm (serveHTTP h req.1 req.2).2 rest

/-! ## Cache-free (pure) companions, used to state what the cached code
computes. -/

/-- Some configured range contains the address. -/
def anyContains (trusted : List IPNet) (ip : IP) : Bool :=
  trusted.any fun r => r.Contains ip

/-- The stateless trust predicate: empty configuration trusts everybody,
otherwise range membership. -/
def isTrustedPure (trusted : List IPNet) (ip : IP) : Bool :=
  trusted.isEmpty || anyContains trusted ip

/-- First entry of the list (already reversed, i.e. rightmost first) whose
trimmed form parses to an untrusted address; the entry is returned
trimmed. -/
def firstUntrusted (trusted : List IPNet) : List Str → Option Str
  | [] => none
  | e :: rest =>
    let t := trimSpace e
    if isTrustedPure trusted (parseIP t) then firstUntrusted trusted rest else some t

/-- Cache-free statement of `realIPFromXFF`. -/
def pureXFF (trusted : List IPNet) (recursive : Bool) (xff : Str) : Str :=
  let ips := splitOnChar ',' xff
  if ips.isEmpty then []
  else if !recursive then trimSpace (ips.getLastD [])
  else
    match firstUntrusted trusted ips.reverse with
    | some t => t
    | none => trimSpace (ips.headD [])

/-- Cache-free statement of the header transformation `serveHTTP`
performs. -/
def pureResolve (trusted : List IPNet) (src dst : Str) (recursive : Bool)
    (remoteAddr : Str) (hdrs : Header) : Header :=
  let raw := splitHost remoteAddr
  if !isTrustedPure trusted (parseIP raw) then
    if raw ≠ [] then headerSet hdrs dst raw else hdrs
  else
    let cand :=
      if src = HeaderXForwardedFor then
        pureXFF trusted recursive (headerGet hdrs HeaderXForwardedFor)
      else headerGet hdrs src
    let realIP := if cand = [] then raw else cand
    if realIP ≠ [] then headerSet hdrs dst realIP else hdrs

/-- The reachable cache states: every key in the cache is the string form
of an address lying in one of the configured ranges. -/
def CacheValid (trusted : List IPNet) (cache : List Str) : Prop :=
  ∀ ip : IP, ipString ip ∈ cache → anyContains trusted ip = true

/-! ## Concrete fixtures, matching the CIDR blocks in the repository's
tests. -/

/-- The CIDR block 192.168.0.0/16. -/
def cidr192 : IPNet := ⟨⟨192, 168, 0, 0⟩, 16⟩

/-- The CIDR block 127.0.0.1/32. -/
def cidr127 : IPNet := ⟨⟨127, 0, 0, 1⟩, 32⟩

/-- The CIDR block 10.0.0.0/8. -/
def cidr10 : IPNet := ⟨⟨10, 0, 0, 0⟩, 8⟩

/-- A trust-all recursive forwarding-chain configuration. -/
def trustAllRecursive : Handler :=
  { trusted := [], srcHeader := HeaderXForwardedFor, dstHeader := HeaderXRealIP,
    recursive := true, cache := [] }

/-- A configuration trusting only 10.0.0.0/8. -/
def trustTenHandler : Handler :=
  { trusted := [cidr10], srcHeader := HeaderXRealIP, dstHeader := HeaderXRealIP,
    recursive := false, cache := [] }

/-- A configuration trusting only 192.168.0.0/16, as in the repository's
"not a trusted ip from" test. -/
def trust192Handler : Handler :=
  { trusted := [cidr192], srcHeader := HeaderXRealIP, dstHeader := HeaderXRealIP,
    recursive := false, cache := [] }

/-! ## The decimal printer is injective on octets, hence `ipString` is
injective: the string-keyed cache never confuses two addresses. -/

set_option maxRecDepth 4096

theorem digitsVal_uitoa : ∀ n : Fin 256, digitsVal (uitoa n.val) = n.val := by decide

theorem uitoa_digits :
    ∀ n : Fin 256, ((uitoa n.val).all isDigit && !(uitoa n.val).isEmpty) = true := by decide

theorem uitoa_all_digits {n : Nat} (hn : n < 256) : ∀ c ∈ uitoa n, isDigit c = true := by
  intro c hc
  have h := uitoa_digits ⟨n, hn⟩
  rw [Bool.and_eq_true, List.all_eq_true] at h
  exact h.1 c hc

theorem uitoa_ne_nil {n : Nat} (hn : n < 256) : uitoa n ≠ [] := by
  have h := uitoa_digits ⟨n, hn⟩
  rw [Bool.and_eq_true] at h
  intro he
  rw [he] at h
  exact absurd h.2 (by decide)

theorem uitoa_inj {m n : Nat} (hm : m < 256) (hn : n < 256) (h : uitoa m = uitoa n) :
    m = n := by
  have h1 := digitsVal_uitoa ⟨m, hm⟩
  have h2 := digitsVal_uitoa ⟨n, hn⟩
  simp only at h1 h2
  rw [← h1, ← h2, h]

theorem ne_dot_of_isDigit {c : Char} (h : isDigit c = true) : c ≠ '.' := by
  intro he
  rw [he] at h
  exact absurd h (by decide)

theorem append_sep_inj {as bs xs ys : Str}
    (ha : ∀ c ∈ as, c ≠ '.') (hb : ∀ c ∈ bs, c ≠ '.')
    (h : as ++ '.' :: xs = bs ++ '.' :: ys) : as = bs ∧ xs = ys := by
  induction as generalizing bs with
  | nil =>
    cases bs with
    | nil => simpa using h
    | cons b bs2 =>
      simp only [List.nil_append, List.cons_append, List.cons.injEq] at h
      exact absurd h.1.symm (hb b (by simp))
  | cons a as2 ih =>
    cases bs with
    | nil =>
      simp only [List.cons_append, List.nil_append, List.cons.injEq] at h
      exact absurd h.1 (ha a (by simp))
    | cons b bs2 =>
      simp only [List.cons_append, List.cons.injEq] at h
      obtain ⟨h1, h2⟩ := h
      have hr := ih (fun c hc => ha c (List.mem_cons_of_mem _ hc))
        (fun c hc => hb c (List.mem_cons_of_mem _ hc)) h2
      exact ⟨by rw [h1, hr.1], hr.2⟩

theorem uitoa_no_dot {n : Nat} (hn : n < 256) : ∀ c ∈ uitoa n, c ≠ '.' :=
  fun c hc => ne_dot_of_isDigit (uitoa_all_digits hn c hc)

theorem ipString_inj : ∀ {ip1 ip2 : IP}, ipString ip1 = ipString ip2 → ip1 = ip2 := by
  have hnil : ∀ q : IPv4, ipString none ≠ ipString (some q) := by
    intro q h
    have hd : ipString none = ['<', 'n', 'i', 'l', '>'] := rfl
    rw [hd] at h
    cases hu : uitoa q.a.val with
    | nil => exact uitoa_ne_nil q.a.isLt hu
    | cons c cs =>
      have hc : isDigit c = true := uitoa_all_digits q.a.isLt c (by rw [hu]; simp)
      simp only [ipString] at h
      rw [hu, List.cons_append, List.cons.injEq] at h
      rw [← h.1] at hc
      exact absurd hc (by decide)
  intro ip1 ip2 h
  match ip1, ip2 with
  | none, none => rfl
  | none, some q => exact absurd h (hnil q)
  | some q, none => exact absurd h.symm (hnil q)
  | some q1, some q2 =>
    simp only [ipString] at h
    obtain ⟨ha, h⟩ := append_sep_inj (uitoa_no_dot q1.a.isLt) (uitoa_no_dot q2.a.isLt) h
    obtain ⟨hb, h⟩ := append_sep_inj (uitoa_no_dot q1.b.isLt) (uitoa_no_dot q2.b.isLt) h
    obtain ⟨hc, hd⟩ := append_sep_inj (uitoa_no_dot q1.c.isLt) (uitoa_no_dot q2.c.isLt) h
    obtain ⟨a1, b1, c1, d1⟩ := q1
    obtain ⟨a2, b2, c2, d2⟩ := q2
    simp only [Option.some.injEq, IPv4.mk.injEq]
    refine ⟨Fin.ext ?_, Fin.ext ?_, Fin.ext ?_, Fin.ext ?_⟩
    · exact uitoa_inj a1.isLt a2.isLt ha
    · exact uitoa_inj b1.isLt b2.isLt hb
    · exact uitoa_inj c1.isLt c2.isLt hc
    · exact uitoa_inj d1.isLt d2.isLt hd

/-! ## The cached trust test computes the pure trust predicate on every
reachable cache. -/

theorem cacheValid_nil (trusted : List IPNet) : CacheValid trusted [] := by
  intro ip h
  simp at h

theorem scanInsert_eq (ip : IP) (ipstr : Str) (cache : List Str) :
    ∀ ts : List IPNet, scanInsert ip ipstr cache ts =
      (anyContains ts ip, if anyContains ts ip then ipstr :: cache else cache) := by
  intro ts
  induction ts with
  | nil => simp [scanInsert, anyContains]
  | cons r rest ih =>
    simp only [scanInsert, anyContains, List.any_cons]
    by_cases hr : r.Contains ip = true
    · simp [hr]
    · simp only [Bool.not_eq_true] at hr
      simp only [hr, Bool.false_or, if_false]
      exact ih

theorem trustedIP_valid {trusted : List IPNet} {cache : List Str} (ip : IP)
    (hv : CacheValid trusted cache) :
    (trustedIP cache ip trusted).1 = isTrustedPure trusted ip ∧
      CacheValid trusted (trustedIP cache ip trusted).2 := by
  unfold trustedIP isTrustedPure
  by_cases he : trusted.isEmpty
  · simpa [he] using hv
  · have he' : trusted.isEmpty = false := by simpa using he
    by_cases hm : ipString ip ∈ cache
    · have ha := hv ip hm
      simpa [he', hm, ha] using hv
    · simp only [he', hm, if_false, Bool.false_or, scanInsert_eq]
      cases hanyc : anyContains trusted ip with
      | false => simpa [hanyc] using hv
      | true =>
        simp only [hanyc, if_true, Bool.true_eq]
        refine ⟨rfl, ?_⟩
        intro ip' hmem
        rcases List.mem_cons.mp hmem with h1 | h2
        · rw [ipString_inj h1]
          exact hanyc
        · exact hv ip' h2

theorem trustedIP_idem (cache : List Str) (ip : IP) (trusted : List IPNet) :
    (trustedIP (trustedIP cache ip trusted).2 ip trusted).1 =
      (trustedIP cache ip trusted).1 := by
  unfold trustedIP
  by_cases he : trusted.isEmpty
  · simp [he]
  · have he' : trusted.isEmpty = false := by simpa using he
    by_cases hm : ipString ip ∈ cache
    · simp [he', hm]
    · simp only [he', hm, if_false, scanInsert_eq]
      cases hanyc : anyContains trusted ip with
      | false => simp [he', hanyc, hm, scanInsert_eq]
      | true => simp [he', hanyc]

theorem xffScan_valid {trusted : List IPNet} :
    ∀ (l : List Str) (cache : List Str), CacheValid trusted cache →
      (xffScan trusted cache l).1 = firstUntrusted trusted l ∧
        CacheValid trusted (xffScan trusted cache l).2 := by
  intro l
  induction l with
  | nil =>
    intro cache hv
    simpa [xffScan, firstUntrusted] using hv
  | cons e rest ih =>
    intro cache hv
    obtain ⟨h1, h2⟩ := @trustedIP_valid trusted cache (parseIP (trimSpace e)) hv
    simp only [xffScan, firstUntrusted, h1]
    cases hp : isTrustedPure trusted (parseIP (trimSpace e))
    · simpa [hp] using h2
    · simpa [hp] using ih _ h2

theorem realIPFromXFF_valid (h : Handler) (xff : Str)
    (hv : CacheValid h.trusted h.cache) :
    (h.realIPFromXFF xff).1 = pureXFF h.trusted h.recursive xff ∧
      CacheValid h.trusted (h.realIPFromXFF xff).2 := by
  unfold Handler.realIPFromXFF pureXFF
  by_cases hie : (splitOnChar ',' xff).isEmpty
  · simpa [hie] using hv
  · have hie' : (splitOnChar ',' xff).isEmpty = false := by simpa using hie
    cases hrec : h.recursive
    · simpa [hie', hrec] using hv
    · obtain ⟨h1, h2⟩ := @xffScan_valid h.trusted (splitOnChar ',' xff).reverse h.cache hv
      simp only [hie', hrec, Bool.not_true, if_false, Bool.false_eq_true]
      cases hscan : xffScan h.trusted h.cache (splitOnChar ',' xff).reverse with
      | mk o c =>
        rw [hscan] at h1 h2
        cases o with
        | none => simpa [← h1] using h2
        | some s => simpa [← h1] using h2

theorem serveHTTP_config (h : Handler) (r : Str) (hd : Header) :
    (serveHTTP h r hd).2.trusted = h.trusted ∧
      (serveHTTP h r hd).2.srcHeader = h.srcHeader ∧
      (serveHTTP h r hd).2.dstHeader = h.dstHeader ∧
      (serveHTTP h r hd).2.recursive = h.recursive := by
  simp only [serveHTTP]
  split
  · simp
  · simp

theorem sourceCandidate_valid (h : Handler) (hdrs : Header)
    (hv : CacheValid h.trusted h.cache) :
    (sourceCandidate h hdrs).1 =
      (if h.srcHeader = HeaderXForwardedFor then
          pureXFF h.trusted h.recursive (headerGet hdrs HeaderXForwardedFor)
        else headerGet hdrs h.srcHeader) ∧
      CacheValid h.trusted (sourceCandidate h hdrs).2 := by
  unfold sourceCandidate
  by_cases hsrc : h.srcHeader = HeaderXForwardedFor
  · rw [if_pos hsrc, if_pos hsrc]
    exact realIPFromXFF_valid h _ hv
  · rw [if_neg hsrc, if_neg hsrc]
    exact ⟨rfl, hv⟩

theorem serveHTTP_valid (h : Handler) (r : Str) (hd : Header)
    (hv : CacheValid h.trusted h.cache) :
    (serveHTTP h r hd).1 = pureResolve h.trusted h.srcHeader h.dstHeader h.recursive r hd ∧
      CacheValid h.trusted (serveHTTP h r hd).2.cache := by
  obtain ⟨h1, h2⟩ := @trustedIP_valid h.trusted h.cache (parseIP (splitHost r)) hv
  obtain ⟨s1, s2⟩ := sourceCandidate_valid
    { h with cache := (trustedIP h.cache (parseIP (splitHost r)) h.trusted).2 } hd h2
  simp only [serveHTTP, pureResolve]
  simp only [h1]
  cases hp : isTrustedPure h.trusted (parseIP (splitHost r))
  · simpa [hp] using h2
  · dsimp only at s1 s2
    simp only [hp, Bool.not_true, if_false, Bool.false_eq_true, s1]
    exact ⟨trivial, s2⟩

theorem warm_valid :
    ∀ (reqs : List (Str × Header)) (h : Handler), CacheValid h.trusted h.cache →
      (warm h reqs).trusted = h.trusted ∧
        (warm h reqs).srcHeader = h.srcHeader ∧
        (warm h reqs).dstHeader = h.dstHeader ∧
        (warm h reqs).recursive = h.recursive ∧
        CacheValid h.trusted (warm h reqs).cache := by
  intro reqs
  induction reqs with
  | nil =>
    intro h hv
    exact ⟨rfl, rfl, rfl, rfl, hv⟩
  | cons q rest ih =>
    intro h hv
    obtain ⟨hc1, hc2, hc3, hc4⟩ := serveHTTP_config h q.1 q.2
    obtain ⟨-, hval⟩ := serveHTTP_valid h q.1 q.2 hv
    have hv2 : CacheValid (serveHTTP h q.1 q.2).2.trusted (serveHTTP h q.1 q.2).2.cache := by
      rw [hc1]; exact hval
    obtain ⟨i1, i2, i3, i4, i5⟩ := ih (serveHTTP h q.1 q.2).2 hv2
    refine ⟨?_, ?_, ?_, ?_, ?_⟩
    · simp only [warm]
      rw [i1, hc1]
    · simp only [warm]
      rw [i2, hc2]
    · simp only [warm]
      rw [i3, hc3]
    · simp only [warm]
      rw [i4, hc4]
    · simp only [warm]
      rw [hc1] at i5
      exact i5

theorem splitOnChar_ne_nil (sep : Char) : ∀ s : Str, splitOnChar sep s ≠ [] := by
  intro s
  cases s with
  | nil => simp [splitOnChar]
  | cons c cs =>
    simp only [splitOnChar]
    split
    · simp
    · simp

theorem headerGet_headerSet_self (hdrs : Header) (k v : Str) :
    headerGet (headerSet hdrs k v) k = v := by
  simp [headerGet, headerSet]

theorem isEmpty_false_of_ne_nil {α : Type} {l : List α} (h : l ≠ []) : l.isEmpty = false := by
  cases l with
  | nil => exact absurd rfl h
  | cons a t => rfl

theorem anyContains_none (trusted : List IPNet) : anyContains trusted none = false := by
  rw [anyContains, List.any_eq_false]
  intro rng hrng
  simp [IPNet.Contains]

theorem firstUntrusted_append_trusted {trusted : List IPNet} {l1 : List Str}
    (h : ∀ e ∈ l1, isTrustedPure trusted (parseIP (trimSpace e)) = true) (l2 : List Str) :
    firstUntrusted trusted (l1 ++ l2) = firstUntrusted trusted l2 := by
  induction l1 with
  | nil => simp
  | cons e t ih =>
    rw [List.cons_append, firstUntrusted]
    simp only [h e (by simp), if_true]
    exact ih fun e2 he2 => h e2 (by simp [he2])

theorem findIdx_append_sep {p : Char → Bool} :
    ∀ l1 : Str, (∀ c ∈ l1, p c = false) → ∀ {c0 : Char}, p c0 = true →
      ∀ (l2 : Str) (i : Nat), List.findIdx? p (l1 ++ c0 :: l2) i = some (i + l1.length) := by
  intro l1
  induction l1 with
  | nil =>
    intro _ c0 hc l2 i
    simp [List.findIdx?_cons, hc]
  | cons a t ih =>
    intro h c0 hc l2 i
    have ha : p a = false := h a (by simp)
    rw [List.cons_append, List.findIdx?_cons]
    simp only [ha, Bool.false_eq_true, if_false]
    rw [ih (fun c hcc => h c (by simp [hcc])) hc l2 (i + 1)]
    congr 1
    simp only [List.length_cons]
    omega

/-! ## The claims -/

/-- C10: a freshly created builder on which no configuration method is
called builds successfully, and the resulting handler uses `x-real-ip` as
both source and destination header, has no trusted ranges (trust-all
policy), recursion disabled, and an empty cache. -/
theorem default_builder_build :
    New.Build = (Except.ok defaultHandler, New) ∧
      defaultHandler.srcHeader = "x-real-ip".data ∧
      defaultHandler.dstHeader = "x-real-ip".data ∧
      defaultHandler.trusted = [] ∧
      defaultHandler.recursive = false ∧
      defaultHandler.cache = [] :=
  ⟨rfl, rfl, rfl, rfl, rfl, rfl⟩

/-- C4: with a non-empty trusted list and an address not yet cached,
`trustedIP` answers true exactly when some configured range contains the
address (the scan stops at the first match); a positive answer inserts the
address's string form into the cache, a negative one leaves the cache
unchanged.  With an empty trusted list it answers true unconditionally
without reading or writing the cache. -/
theorem trustedIP_membership (trusted : List IPNet) (cache : List Str) (ip : IP)
    (hne : trusted ≠ []) (hmiss : ipString ip ∉ cache) :
    ((trustedIP cache ip trusted).1 = anyContains trusted ip) ∧
      (anyContains trusted ip = true →
        (trustedIP cache ip trusted).2 = ipString ip :: cache) ∧
      (anyContains trusted ip = false → (trustedIP cache ip trusted).2 = cache) ∧
      (∀ (cache2 : List Str) (ip2 : IP), trustedIP cache2 ip2 [] = (true, cache2)) := by
  have he : trusted.isEmpty = false := isEmpty_false_of_ne_nil hne
  refine ⟨?_, ?_, ?_, ?_⟩
  · simp [trustedIP, he, hmiss, scanInsert_eq]
  · intro ha
    simp [trustedIP, he, hmiss, scanInsert_eq, ha]
  · intro ha
    simp [trustedIP, he, hmiss, scanInsert_eq, ha]
  · intro cache2 ip2
    simp [trustedIP]

theorem trustedIP_membership_witness :
    (([cidr192] : List IPNet) ≠ [] ∧ ipString (parseIP "192.168.0.1".data) ∉ ([] : List Str)) ∧
      ((trustedIP [] (parseIP "192.168.0.1".data) [cidr192]).1 =
          anyContains [cidr192] (parseIP "192.168.0.1".data)) ∧
      (anyContains [cidr192] (parseIP "192.168.0.1".data) = true →
        (trustedIP [] (parseIP "192.168.0.1".data) [cidr192]).2 =
          ipString (parseIP "192.168.0.1".data) :: []) ∧
      (anyContains [cidr192] (parseIP "192.168.0.1".data) = false →
        (trustedIP [] (parseIP "192.168.0.1".data) [cidr192]).2 = []) ∧
      (∀ (cache2 : List Str) (ip2 : IP), trustedIP cache2 ip2 [] = (true, cache2)) :=
  ⟨⟨by decide, by decide⟩,
    trustedIP_membership [cidr192] [] (parseIP "192.168.0.1".data) (by decide) (by decide)⟩

/-- C3: with recursion disabled, the forwarding-chain resolution returns
the last (rightmost) comma-separated entry trimmed, for every
configuration, header value and cache, and performs no trust evaluation on
it (the cache is returned untouched). -/
theorem realIPFromXFF_nonrecursive (h : Handler) (xff : Str)
    (hrec : h.recursive = false) :
    h.realIPFromXFF xff = (trimSpace ((splitOnChar ',' xff).getLastD []), h.cache) := by
  have hie : (splitOnChar ',' xff).isEmpty = false :=
    isEmpty_false_of_ne_nil (splitOnChar_ne_nil ',' xff)
  simp [Handler.realIPFromXFF, hie, hrec]

theorem realIPFromXFF_nonrecursive_witness :
    trustTenHandler.recursive = false ∧
      trustTenHandler.realIPFromXFF "1.2.3.4, 1.1.1.1, 192.168.0.1".data =
        (trimSpace ((splitOnChar ',' "1.2.3.4, 1.1.1.1, 192.168.0.1".data).getLastD []),
          trustTenHandler.cache) :=
  ⟨by decide, realIPFromXFF_nonrecursive trustTenHandler _ (by decide)⟩

/-- C2: with recursion enabled and a reachable cache, the forwarding-chain
resolution scans the trimmed entries from rightmost to leftmost and
returns the first one whose parsed address is not trusted; if every entry
is trusted it returns the leftmost (first) entry, trimmed. -/
theorem realIPFromXFF_recursive_scan (trusted : List IPNet) (cache : List Str)
    (src dst : Str) (xff : Str) (hv : CacheValid trusted cache) :
    (Handler.realIPFromXFF ⟨trusted, src, dst, true, cache⟩ xff).1 =
      (match firstUntrusted trusted (splitOnChar ',' xff).reverse with
        | some t => t
        | none => trimSpace ((splitOnChar ',' xff).headD [])) := by
  obtain ⟨h1, -⟩ := realIPFromXFF_valid ⟨trusted, src, dst, true, cache⟩ xff hv
  rw [h1]
  have hie : (splitOnChar ',' xff).isEmpty = false :=
    isEmpty_false_of_ne_nil (splitOnChar_ne_nil ',' xff)
  simp [pureXFF, hie]

theorem realIPFromXFF_recursive_scan_witness :
    CacheValid [cidr127, cidr192] [] ∧
      (Handler.realIPFromXFF
          ⟨[cidr127, cidr192], HeaderXForwardedFor, HeaderXRealIP, true, []⟩
          "1.2.3.4, 1.1.1.1, 192.168.0.1".data).1 =
        (match firstUntrusted [cidr127, cidr192]
            (splitOnChar ',' "1.2.3.4, 1.1.1.1, 192.168.0.1".data).reverse with
          | some t => t
          | none => trimSpace ((splitOnChar ',' "1.2.3.4, 1.1.1.1, 192.168.0.1".data).headD [])) :=
  ⟨cacheValid_nil _,
    realIPFromXFF_recursive_scan [cidr127, cidr192] [] HeaderXForwardedFor HeaderXRealIP
      "1.2.3.4, 1.1.1.1, 192.168.0.1".data (cacheValid_nil _)⟩

/-- C9: the trust cache changes latency only, never results: a second
`trustedIP` call on the same address (through the cache the first call
produced) returns the same answer as the first, and a resolution performed
with a cache warmed by any sequence of prior resolutions produces exactly
the headers the same resolution produces with a cold (empty) cache. -/
theorem cache_transparent :
    (∀ (cache : List Str) (ip : IP) (trusted : List IPNet),
        (trustedIP (trustedIP cache ip trusted).2 ip trusted).1 =
          (trustedIP cache ip trusted).1) ∧
      (∀ (h : Handler) (reqs : List (Str × Header)) (remote : Str) (hdrs : Header),
        (serveHTTP (warm { h with cache := [] } reqs) remote hdrs).1 =
          (serveHTTP { h with cache := [] } remote hdrs).1) := by
  refine ⟨trustedIP_idem, ?_⟩
  intro h reqs remote hdrs
  have hv0 : CacheValid ({ h with cache := [] } : Handler).trusted
      ({ h with cache := [] } : Handler).cache := cacheValid_nil _
  obtain ⟨w1, w2, w3, w4, w5⟩ := warm_valid reqs { h with cache := [] } hv0
  have hw : CacheValid (warm { h with cache := [] } reqs).trusted
      (warm { h with cache := [] } reqs).cache := by
    rw [w1]
    exact w5
  obtain ⟨p1, -⟩ := serveHTTP_valid (warm { h with cache := [] } reqs) remote hdrs hw
  obtain ⟨p2, -⟩ := serveHTTP_valid { h with cache := [] } remote hdrs hv0
  rw [p1, p2, w1, w2, w3, w4]

/-- C1: when the trusted list is non-empty and no configured range
contains the request's parsed peer address (the address not being cached),
the resolved address is the raw peer address itself, written to the
destination header exactly when non-empty, the cache is untouched, and —
the equation holding for every header collection — the source header's
value has no influence on the result. -/
theorem serveHTTP_untrusted_peer (h : Handler) (remote : Str) (hdrs : Header)
    (hne : h.trusted ≠ [])
    (hnc : ∀ rng ∈ h.trusted, rng.Contains (parseIP (splitHost remote)) = false)
    (hmiss : ipString (parseIP (splitHost remote)) ∉ h.cache) :
    serveHTTP h remote hdrs =
      ((if splitHost remote ≠ [] then headerSet hdrs h.dstHeader (splitHost remote)
          else hdrs), h) ∧
      (splitHost remote ≠ [] →
        headerGet (serveHTTP h remote hdrs).1 h.dstHeader = splitHost remote) := by
  have hany : anyContains h.trusted (parseIP (splitHost remote)) = false := by
    rw [anyContains, List.any_eq_false]
    intro rng hrng
    simp [hnc rng hrng]
  have he : h.trusted.isEmpty = false := isEmpty_false_of_ne_nil hne
  have htc : trustedIP h.cache (parseIP (splitHost remote)) h.trusted = (false, h.cache) := by
    simp [trustedIP, he, hmiss, scanInsert_eq, hany]
  have hmain : serveHTTP h remote hdrs =
      ((if splitHost remote ≠ [] then headerSet hdrs h.dstHeader (splitHost remote)
          else hdrs), h) := by
    simp only [serveHTTP, htc]
    simp
  refine ⟨hmain, ?_⟩
  intro hraw
  rw [hmain]
  simp [hraw, headerGet_headerSet_self]

theorem serveHTTP_untrusted_peer_witness :
    (trust192Handler.trusted ≠ [] ∧
        (∀ rng ∈ trust192Handler.trusted,
          rng.Contains (parseIP (splitHost "127.0.0.1:9999".data)) = false) ∧
        ipString (parseIP (splitHost "127.0.0.1:9999".data)) ∉ trust192Handler.cache) ∧
      (serveHTTP trust192Handler "127.0.0.1:9999".data
          [("x-real-ip".data, "1.1.1.1".data)] =
        ((if splitHost "127.0.0.1:9999".data ≠ [] then
            headerSet [("x-real-ip".data, "1.1.1.1".data)] trust192Handler.dstHeader
              (splitHost "127.0.0.1:9999".data)
          else [("x-real-ip".data, "1.1.1.1".data)]), trust192Handler) ∧
        (splitHost "127.0.0.1:9999".data ≠ [] →
          headerGet (serveHTTP trust192Handler "127.0.0.1:9999".data
              [("x-real-ip".data, "1.1.1.1".data)]).1 trust192Handler.dstHeader =
            splitHost "127.0.0.1:9999".data)) :=
  ⟨⟨by decide, by decide, by decide⟩,
    serveHTTP_untrusted_peer trust192Handler "127.0.0.1:9999".data
      [("x-real-ip".data, "1.1.1.1".data)] (by decide) (by decide) (by decide)⟩

/-- C7: requesting the reserved `forwarded` source header (after trimming
and lower-casing) records an error; once any error is recorded every
builder method is a no-op preserving it; `Build` then returns that first
error and no handler; and every `Build`, successful or failed, resets the
builder to the fresh state, so the same instance can be reused. -/
theorem builder_error_discipline :
    (∀ (b : Builder) (name : Str), b.err = none →
        toLower (trimSpace name) = headerForwarded →
        (b.SourceHeader name).err = some forwardedErr) ∧
      (∀ (b : Builder) (name : Str), b.err.isSome = true → b.SourceHeader name = b) ∧
      (∀ (b : Builder) (s : Str), b.err.isSome = true → b.DestinationHeader s = b) ∧
      (∀ (b : Builder) (rs : List IPNet), b.err.isSome = true → b.TrustedIP rs = b) ∧
      (∀ (b : Builder) (v : Bool), b.err.isSome = true → b.Recursive v = b) ∧
      (∀ (b : Builder) (e : Str), b.err = some e → b.Build = (Except.error e, New)) ∧
      (∀ b : Builder, (b.Build).2 = New) := by
  refine ⟨?_, ?_, ?_, ?_, ?_, ?_, ?_⟩
  · intro b name h1 h2
    simp [Builder.SourceHeader, h1, h2]
  · intro b name hb
    simp [Builder.SourceHeader, hb]
  · intro b s hb
    simp [Builder.DestinationHeader, hb]
  · intro b rs hb
    simp [Builder.TrustedIP, hb]
  · intro b v hb
    simp [Builder.Recursive, hb]
  · intro b e hb
    simp [Builder.Build, hb, Builder.Reset, New]
  · intro b
    cases hb : b.err
    · simp [Builder.Build, hb, Builder.Reset, New]
    · simp [Builder.Build, hb, Builder.Reset, New]

theorem builder_error_discipline_witness :
    ((New.err = none ∧ toLower (trimSpace " Forwarded ".data) = headerForwarded) ∧
        (New.SourceHeader " Forwarded ".data).err = some forwardedErr) ∧
      (New.SourceHeader " Forwarded ".data).Recursive true =
        New.SourceHeader " Forwarded ".data ∧
      (New.SourceHeader " Forwarded ".data).Build = (Except.error forwardedErr, New) ∧
      (New.Build).2 = New := by
  obtain ⟨h1, h2, h3, h4, h5, h6, h7⟩ := builder_error_discipline
  refine ⟨⟨⟨rfl, by decide⟩, h1 New _ rfl (by decide)⟩, ?_, ?_, h7 New⟩
  · exact h5 _ true (by decide)
  · exact h6 _ forwardedErr (by decide)

/-- C8: for a trusted peer, an empty candidate from the source header (or
chain walk) falls back to the raw peer address; if the final value is
still empty no destination-header write occurs (pass-through); a non-empty
candidate is written; and resolution never fails: every request whatsoever
yields either a pass-through or a single non-empty header write. -/
theorem resolve_fallback_and_write (h : Handler) (remote : Str) (hdrs : Header)
    (htr : (trustedIP h.cache (parseIP (splitHost remote)) h.trusted).1 = true) :
    ((sourceCandidate
          { h with cache := (trustedIP h.cache (parseIP (splitHost remote)) h.trusted).2 }
          hdrs).1 = [] → splitHost remote ≠ [] →
        (serveHTTP h remote hdrs).1 = headerSet hdrs h.dstHeader (splitHost remote)) ∧
      ((sourceCandidate
          { h with cache := (trustedIP h.cache (parseIP (splitHost remote)) h.trusted).2 }
          hdrs).1 = [] → splitHost remote = [] → (serveHTTP h remote hdrs).1 = hdrs) ∧
      ((sourceCandidate
          { h with cache := (trustedIP h.cache (parseIP (splitHost remote)) h.trusted).2 }
          hdrs).1 ≠ [] →
        (serveHTTP h remote hdrs).1 = headerSet hdrs h.dstHeader
          (sourceCandidate
            { h with cache := (trustedIP h.cache (parseIP (splitHost remote)) h.trusted).2 }
            hdrs).1) ∧
      (∀ (h2 : Handler) (r2 : Str) (hd2 : Header),
        (serveHTTP h2 r2 hd2).1 = hd2 ∨
          ∃ v, v ≠ [] ∧ (serveHTTP h2 r2 hd2).1 = headerSet hd2 h2.dstHeader v) := by
  refine ⟨?_, ?_, ?_, ?_⟩
  · intro hcand hraw
    simp [serveHTTP, htr, hcand, hraw]
  · intro hcand hraw
    rw [hraw] at htr hcand
    simp [serveHTTP, htr, hcand, hraw]
  · intro hcand
    simp [serveHTTP, htr, hcand]
  · intro h2 r2 hd2
    by_cases ht2 : (trustedIP h2.cache (parseIP (splitHost r2)) h2.trusted).1 = true
    · by_cases hc2 : (sourceCandidate
          { h2 with cache := (trustedIP h2.cache (parseIP (splitHost r2)) h2.trusted).2 }
          hd2).1 = []
      · by_cases hr2 : splitHost r2 = []
        · left
          rw [hr2] at ht2 hc2
          simp [serveHTTP, ht2, hc2, hr2]
        · right
          exact ⟨splitHost r2, hr2, by simp [serveHTTP, ht2, hc2, hr2]⟩
      · right
        refine ⟨(sourceCandidate
            { h2 with cache := (trustedIP h2.cache (parseIP (splitHost r2)) h2.trusted).2 }
            hd2).1, hc2, ?_⟩
        simp [serveHTTP, ht2, hc2]
    · have ht2' : (trustedIP h2.cache (parseIP (splitHost r2)) h2.trusted).1 = false := by
        simpa using ht2
      by_cases hr2 : splitHost r2 = []
      · left
        rw [hr2] at ht2'
        simp [serveHTTP, ht2', hr2]
      · right
        exact ⟨splitHost r2, hr2, by simp [serveHTTP, ht2', hr2]⟩

theorem resolve_fallback_and_write_witness :
    ((trustedIP defaultHandler.cache (parseIP (splitHost "10.0.0.1:80".data))
          defaultHandler.trusted).1 = true ∧
        (sourceCandidate
            { defaultHandler with
                cache := (trustedIP defaultHandler.cache
                  (parseIP (splitHost "10.0.0.1:80".data)) defaultHandler.trusted).2 }
            []).1 = [] ∧
        splitHost "10.0.0.1:80".data ≠ []) ∧
      (serveHTTP defaultHandler "10.0.0.1:80".data []).1 =
        headerSet [] defaultHandler.dstHeader (splitHost "10.0.0.1:80".data) :=
  ⟨⟨by decide, by decide, by decide⟩,
    (resolve_fallback_and_write defaultHandler "10.0.0.1:80".data []
        (by decide)).1 (by decide) (by decide)⟩

/-- C5 as stated is refuted at the trust-all configuration: with an empty
trusted list `trustedIP` is unconditionally true, so a malformed entry is
trusted too; the recursive scan of `"1.2.3.4,boom"` therefore does not
return the malformed rightmost token `boom` verbatim but falls through to
the leftmost entry `1.2.3.4`. -/
theorem malformed_entry_trustall_cex :
    (trustedIP [] (parseIP "boom".data) []).1 = true ∧
      (trustAllRecursive.realIPFromXFF "1.2.3.4,boom".data).1 = "1.2.3.4".data ∧
      ("1.2.3.4".data : Str) ≠ "boom".data := by decide

/-- C5 amended: when the trusted list is non-empty (and the cache
reachable), an entry that fails to parse is treated as not trusted, so the
recursive scan returns it verbatim (trimmed) as soon as it reaches it —
that is, whenever every entry to its right is trusted; with an empty
trusted list every entry, malformed or not, is trusted instead. -/
theorem malformed_entry_untrusted (trusted : List IPNet) (cache : List Str)
    (src dst xff : Str) (pre post : List Str) (e : Str)
    (hne : trusted ≠ []) (hv : CacheValid trusted cache)
    (hsplit : splitOnChar ',' xff = pre ++ e :: post)
    (hbad : parseIP (trimSpace e) = none)
    (hpost : ∀ e2 ∈ post, isTrustedPure trusted (parseIP (trimSpace e2)) = true) :
    (Handler.realIPFromXFF ⟨trusted, src, dst, true, cache⟩ xff).1 = trimSpace e := by
  obtain ⟨h1, -⟩ := realIPFromXFF_valid ⟨trusted, src, dst, true, cache⟩ xff hv
  rw [h1]
  have hie : (splitOnChar ',' xff).isEmpty = false :=
    isEmpty_false_of_ne_nil (splitOnChar_ne_nil ',' xff)
  have hrev : (splitOnChar ',' xff).reverse = post.reverse ++ e :: pre.reverse := by
    rw [hsplit]
    simp
  have huntr : isTrustedPure trusted (parseIP (trimSpace e)) = false := by
    rw [hbad, isTrustedPure, anyContains_none, isEmpty_false_of_ne_nil hne]
    rfl
  have hfu : firstUntrusted trusted (splitOnChar ',' xff).reverse = some (trimSpace e) := by
    rw [hrev,
      firstUntrusted_append_trusted (fun e2 he2 => hpost e2 (List.mem_reverse.mp he2)),
      firstUntrusted]
    simp [huntr]
  simp [pureXFF, hie, hfu]

theorem malformed_entry_untrusted_witness :
    (([cidr192] : List IPNet) ≠ [] ∧ CacheValid [cidr192] [] ∧
        splitOnChar ',' "192.168.0.5,boom".data =
          ["192.168.0.5".data] ++ "boom".data :: [] ∧
        parseIP (trimSpace "boom".data) = none) ∧
      (Handler.realIPFromXFF
          ⟨[cidr192], HeaderXForwardedFor, HeaderXRealIP, true, []⟩
          "192.168.0.5,boom".data).1 = trimSpace "boom".data :=
  ⟨⟨by decide, cacheValid_nil _, by decide, by decide⟩,
    malformed_entry_untrusted [cidr192] [] HeaderXForwardedFor HeaderXRealIP
      "192.168.0.5,boom".data ["192.168.0.5".data] [] "boom".data
      (by decide) (cacheValid_nil _) (by decide) (by decide) (by simp)⟩

/-- C6 as stated is refuted: a peer address given without a port does not
yield that address — `net.SplitHostPort` demands a port, fails, and the
handler sees an empty peer address, so nothing at all is written here
(the claim would require `x-real-ip: 1.2.3.4`). -/
theorem portless_peer_cex :
    splitHost "1.2.3.4".data = [] ∧
      ("1.2.3.4".data : Str) ≠ [] ∧
      serveHTTP trustTenHandler "1.2.3.4".data [] = ([], trustTenHandler) := by decide

/-- C6 amended: resolution first splits the peer string into host and
port, requiring a port: with a port present the host (the address without
the port) is recovered, but a peer string with no colon at all fails the
split and is treated as having no address (empty string); such an
unparseable peer degrades, under a non-empty trusted list and reachable
cache, to an untouched pass-through — processing continues, the request is
not rejected. -/
theorem splitHost_port_required (host port remote2 : Str) (h : Handler) (hdrs : Header)
    (hhost : ∀ c ∈ host, c ≠ ':' ∧ c ≠ '[' ∧ c ≠ ']')
    (hport : ∀ c ∈ port, c ≠ ':' ∧ c ≠ '[' ∧ c ≠ ']')
    (hnocolon : ∀ c ∈ remote2, c ≠ ':')
    (hne : h.trusted ≠ []) (hv : CacheValid h.trusted h.cache) :
    splitHost (host ++ ':' :: port) = host ∧
      splitHost remote2 = [] ∧
      (serveHTTP h remote2 hdrs).1 = hdrs := by
  have hidx : lastColonIdx (host ++ ':' :: port) = some host.length := by
    rw [lastColonIdx]
    have hr : (host ++ ':' :: port).reverse = port.reverse ++ ':' :: host.reverse := by
      simp
    rw [hr, findIdx_append_sep port.reverse
      (fun c hc => beq_eq_false_iff_ne.mpr (hport c (List.mem_reverse.mp hc)).1)
      (by decide) host.reverse 0]
    simp only [Option.some.injEq]
    simp only [List.length_append, List.length_cons, List.length_reverse, Nat.zero_add]
    omega
  have hhead : ¬((host ++ ':' :: port).head? = some '[') := by
    cases host with
    | nil => simp
    | cons c0 t =>
      simp only [List.cons_append, List.head?_cons, Option.some.injEq]
      exact fun hcc => (hhost c0 (by simp)).2.1 hcc
  have htake : (host ++ ':' :: port).take host.length = host := List.take_left host _
  have hdrop : (host ++ ':' :: port).drop (host.length + 1) = port := by
    have : host ++ ':' :: port = (host ++ [':']) ++ port := by simp
    rw [this, List.drop_left' (by simp)]
  have hsplit1 : splitHostPort (host ++ ':' :: port) = some (host, port) := by
    rw [splitHostPort.eq_def, hidx]
    simp only [if_neg hhead]
    rw [if_neg, if_neg, if_neg]
    · rw [htake, hdrop]
    · intro hmem
      rcases List.mem_append.mp hmem with hm | hm
      · exact (hhost _ hm).2.2 rfl
      · rcases List.mem_cons.mp hm with hm2 | hm2
        · exact absurd hm2 (by decide)
        · exact (hport _ hm2).2.2 rfl
    · intro hmem
      rcases List.mem_append.mp hmem with hm | hm
      · exact (hhost _ hm).2.1 rfl
      · rcases List.mem_cons.mp hm with hm2 | hm2
        · exact absurd hm2 (by decide)
        · exact (hport _ hm2).2.1 rfl
    · rw [htake]
      intro hmem
      exact (hhost _ hmem).1 rfl
  have hsplit2 : splitHostPort remote2 = none := by
    rw [splitHostPort.eq_def, lastColonIdx]
    rw [List.findIdx?_eq_none_iff.mpr
      (fun c hc => beq_eq_false_iff_ne.mpr (hnocolon c (List.mem_reverse.mp hc)))]
  have hraw : splitHost remote2 = [] := by
    rw [splitHost, hsplit2]
  refine ⟨by rw [splitHost, hsplit1], hraw, ?_⟩
  obtain ⟨p1, -⟩ := serveHTTP_valid h remote2 hdrs hv
  rw [p1]
  have hpt : isTrustedPure h.trusted (parseIP []) = false := by
    have hp0 : parseIP ([] : Str) = none := rfl
    rw [hp0, isTrustedPure, anyContains_none, isEmpty_false_of_ne_nil hne]
    rfl
  simp [pureResolve, hraw, hpt]

theorem splitHost_port_required_witness :
    ((∀ c ∈ "1.2.3.4".data, c ≠ ':' ∧ c ≠ '[' ∧ c ≠ ']') ∧
        (∀ c ∈ "80".data, c ≠ ':' ∧ c ≠ '[' ∧ c ≠ ']') ∧
        trustTenHandler.trusted ≠ []) ∧
      (splitHost ("1.2.3.4".data ++ ':' :: "80".data) = "1.2.3.4".data ∧
        splitHost "1.2.3.4".data = [] ∧
        (serveHTTP trustTenHandler "1.2.3.4".data
          [("x-real-ip".data, "9.9.9.9".data)]).1 =
            [("x-real-ip".data, "9.9.9.9".data)]) :=
  ⟨⟨by decide, by decide, by decide⟩,
    splitHost_port_required "1.2.3.4".data "80".data "1.2.3.4".data trustTenHandler
      [("x-real-ip".data, "9.9.9.9".data)]
      (by decide) (by decide) (by decide) (by decide) (cacheValid_nil _)⟩

end RealIP
